import Mathlib

/-!
Shallow embedding of `src/rust-core/src/supply_chain.rs` and
`src/rust-core/src/session_keys.rs`.

Rust `HashMap<String, V>` fields are embedded as association lists
`List (String × V)` with map semantics: `alLookup` models `HashMap::get`,
`alInsert` models `HashMap::insert` (replace the binding if the key is
present), and `alPush` models
`entry(k).or_insert_with(Vec::new).push(x)`.  A `HashMap` cannot hold a
key twice, so theorems that iterate over a recipe's `outputs` carry a
`Nodup` hypothesis on its keys where duplicate keys would change the
result.
-/

/-- Models `HashMap::get` on an association list. -/
def alLookup {α : Type} (k : String) : List (String × α) → Option α
  | [] => none
  | (k', v) :: rest => if k' = k then some v else alLookup k rest

/-- Models `HashMap::insert`: replaces the binding at the key if present,
otherwise adds one. -/
def alInsert {α : Type} (k : String) (v : α) : List (String × α) → List (String × α)
  | [] => [(k, v)]
  | (k', v') :: rest => if k' = k then (k, v) :: rest else (k', v') :: alInsert k v rest

/-- Models `adjacency_list.entry(k).or_insert_with(Vec::new).push(x)`. -/
def alPush (k : String) (x : String) : List (String × List String) → List (String × List String)
  | [] => [(k, [x])]
  | (k', v) :: rest => if k' = k then (k', v ++ [x]) :: rest else (k', v) :: alPush k x rest

/-- The `Recipe` struct of `supply_chain.rs`: input quantities, output
quantities and a processing time (`u32` quantities embedded as `Nat`). -/
structure Recipe where
  inputs : List (String × Nat)
  outputs : List (String × Nat)
  process_time_seconds : Nat
deriving DecidableEq

/-- The `SupplyChainGraph` struct: the stored recipes by name, and the
adjacency list mapping a product to the recipes that produce it. -/
structure SupplyChainGraph where
  recipes : List (String × Recipe)
  adjacency_list : List (String × List String)
deriving DecidableEq

/-- `SupplyChainGraph::new`. -/
def SupplyChainGraph.new : SupplyChainGraph := ⟨[], []⟩

/-- `SupplyChainGraph::add_recipe`: inserts the recipe under `name` and,
for each output key, pushes `name` onto that product's adjacency entry. -/
def SupplyChainGraph.add_recipe (g : SupplyChainGraph) (name : String) (recipe : Recipe) :
    SupplyChainGraph :=
  ⟨alInsert name recipe g.recipes,
   recipe.outputs.foldl (fun adj kv => alPush kv.1 name adj) g.adjacency_list⟩

/-- `SupplyChainGraph::find_production_path`: `None` if the target has no
adjacency entry, otherwise a clone of the entry. -/
def SupplyChainGraph.find_production_path (g : SupplyChainGraph) (target_resource : String) :
    Option (List String) :=
  if alLookup target_resource g.adjacency_list = none then none
  else alLookup target_resource g.adjacency_list

/-- A repository state reached by a sequence of `add_recipe` calls starting
from `SupplyChainGraph::new`. -/
def buildGraph (ops : List (String × Recipe)) : SupplyChainGraph :=
  ops.foldl (fun g op => g.add_recipe op.1 op.2) SupplyChainGraph.new

/-- Whether `r` is among the recipe's output keys. -/
def producesKey (recipe : Recipe) (r : String) : Bool :=
  recipe.outputs.any (fun kv => kv.1 == r)

/-- The names of the registration events whose recipe's outputs include
`r`, in registration order (one entry per event). -/
def producersFrom (ops : List (String × Recipe)) (r : String) : List String :=
  (ops.filter (fun op => producesKey op.2 r)).map Prod.fst

/-- The `SessionKey` struct of `session_keys.rs` (`u64` as `Nat`). -/
structure SessionKey where
  private_key : String
  public_key : String
  expires_at : Nat
deriving DecidableEq

/-- `SessionKey::generate`: the mocked generator, an `anyhow::Result`
embedded as `Except String`. -/
def SessionKey.generate : Except String SessionKey :=
  Except.ok ⟨"0x1234...ephemeral_private", "0x5678...ephemeral_public", 0⟩

theorem alLookup_alInsert {α : Type} (k n : String) (v : α) (m : List (String × α)) :
    alLookup n (alInsert k v m) = if k = n then some v else alLookup n m := by
  induction m with
  | nil => simp [alInsert, alLookup]
  | cons hd tl ih =>
    obtain ⟨k', w⟩ := hd
    by_cases hk : k' = k
    · subst hk
      simp [alInsert, alLookup]
      by_cases hn : k' = n <;> simp [hn, alLookup]
    · by_cases hn : k' = n
      · subst hn
        have : ¬ k = k' := fun h => hk h.symm
        simp [alInsert, hk, alLookup, this]
      · simp [alInsert, hk, alLookup, hn, ih]

theorem alLookup_alPush (k x r : String) (adj : List (String × List String)) :
    alLookup r (alPush k x adj) =
      if k = r then some ((alLookup r adj).getD [] ++ [x]) else alLookup r adj := by
  induction adj with
  | nil =>
    simp [alPush, alLookup]
  | cons hd tl ih =>
    obtain ⟨k', v⟩ := hd
    by_cases hk : k' = k
    · subst hk
      simp [alPush, alLookup]
      by_cases hn : k' = r <;> simp [hn, alLookup]
    · by_cases hn : k' = r
      · subst hn
        have : ¬ k = k' := fun h => hk h.symm
        simp [alPush, hk, alLookup, this]
      · simp [alPush, hk, alLookup, hn, ih]

theorem find_production_path_eq_alLookup (g : SupplyChainGraph) (t : String) :
    g.find_production_path t = alLookup t g.adjacency_list := by
  unfold SupplyChainGraph.find_production_path
  by_cases h : alLookup t g.adjacency_list = none <;> simp [h]

theorem alLookup_fold_push_of_not_mem (outs : List (String × Nat)) (name r : String)
    (adj : List (String × List String)) (h : ∀ kv ∈ outs, kv.1 ≠ r) :
    alLookup r (outs.foldl (fun a kv => alPush kv.1 name a) adj) = alLookup r adj := by
  induction outs generalizing adj with
  | nil => rfl
  | cons hd tl ih =>
    have hhd : hd.1 ≠ r := h hd (List.mem_cons_self hd tl)
    have htl : ∀ kv ∈ tl, kv.1 ≠ r := fun kv hkv => h kv (List.mem_cons_of_mem hd hkv)
    rw [List.foldl_cons, ih (alPush hd.1 name adj) htl, alLookup_alPush]
    simp [hhd]

theorem alLookup_fold_push (outs : List (String × Nat)) (name r : String)
    (adj : List (String × List String)) (h : (outs.map Prod.fst).Nodup) :
    alLookup r (outs.foldl (fun a kv => alPush kv.1 name a) adj) =
      if outs.any (fun kv => kv.1 == r) then some ((alLookup r adj).getD [] ++ [name])
      else alLookup r adj := by
  induction outs generalizing adj with
  | nil => rfl
  | cons hd tl ih =>
    rw [List.map_cons, List.nodup_cons] at h
    obtain ⟨hhd, htl⟩ := h
    by_cases hr : hd.1 = r
    · have hnone : ∀ kv ∈ tl, kv.1 ≠ r := by
        intro kv hkv heq
        exact hhd (by rw [hr, ← heq]; exact List.mem_map_of_mem Prod.fst hkv)
      rw [List.foldl_cons, alLookup_fold_push_of_not_mem tl name r _ hnone, alLookup_alPush]
      simp [hr]
    · rw [List.foldl_cons, ih (alPush hd.1 name adj) htl, alLookup_alPush]
      have hb : (hd.1 == r) = false := by
        simpa using hr
      rw [if_neg hr]
      simp only [List.any_cons, hb, Bool.false_or]

theorem alInsert_alInsert {α : Type} (k : String) (v : α) (m : List (String × α)) :
    alInsert k v (alInsert k v m) = alInsert k v m := by
  induction m with
  | nil => simp [alInsert]
  | cons hd tl ih =>
    obtain ⟨k', w⟩ := hd
    by_cases hk : k' = k
    · subst hk
      simp [alInsert]
    · simp [alInsert, hk, ih]

theorem buildGraph_append_singleton (ops : List (String × Recipe)) (op : String × Recipe) :
    buildGraph (ops ++ [op]) = (buildGraph ops).add_recipe op.1 op.2 := by
  simp [buildGraph, List.foldl_append]

theorem recipes_buildGraph (ops : List (String × Recipe)) (n : String) :
    alLookup n (buildGraph ops).recipes = alLookup n ops.reverse := by
  induction ops using List.reverseRecOn with
  | nil => rfl
  | append_singleton l op ih =>
    obtain ⟨k, v⟩ := op
    rw [buildGraph_append_singleton]
    show alLookup n (alInsert k v (buildGraph l).recipes) = _
    rw [alLookup_alInsert, List.reverse_append]
    simp only [List.reverse_singleton, List.singleton_append]
    show _ = if k = n then some v else alLookup n l.reverse
    rw [ih]

theorem producersFrom_append_singleton (ops : List (String × Recipe)) (op : String × Recipe)
    (r : String) :
    producersFrom (ops ++ [op]) r =
      producersFrom ops r ++ if producesKey op.2 r then [op.1] else [] := by
  simp only [producersFrom, List.filter_append, List.map_append]
  by_cases h : producesKey op.2 r <;> simp [List.filter, h]

theorem find_buildGraph (ops : List (String × Recipe)) (r : String)
    (h : ∀ op ∈ ops, (op.2.outputs.map Prod.fst).Nodup) :
    (buildGraph ops).find_production_path r =
      if producersFrom ops r = [] then none else some (producersFrom ops r) := by
  induction ops using List.reverseRecOn with
  | nil => rfl
  | append_singleton l op ih =>
    have hl : ∀ o ∈ l, (o.2.outputs.map Prod.fst).Nodup := by
      intro o ho
      exact h o (List.mem_append_left _ ho)
    have hop : (op.2.outputs.map Prod.fst).Nodup :=
      h op (List.mem_append_right _ (List.mem_singleton_self op))
    have ihl := ih hl
    rw [find_production_path_eq_alLookup] at ihl ⊢
    rw [buildGraph_append_singleton, producersFrom_append_singleton]
    show alLookup r (op.2.outputs.foldl (fun a kv => alPush kv.1 op.1 a)
      (buildGraph l).adjacency_list) = _
    rw [alLookup_fold_push _ _ _ _ hop]
    by_cases hk : producesKey op.2 r
    · rw [if_pos (by simpa [producesKey] using hk), ihl]
      by_cases hemp : producersFrom l r = []
      · simp [hemp, hk]
      · simp [hemp, hk]
    · rw [if_neg (by simpa [producesKey] using hk), ihl]
      simp [hk]

theorem mem_of_alLookup_alPush (adj : List (String × List String)) (k x r : String)
    (l : List String) (h : alLookup r (alPush k x adj) = some l) :
    ∀ n ∈ l, n = x ∨ ∃ l0, alLookup r adj = some l0 ∧ n ∈ l0 := by
  intro n hn
  rw [alLookup_alPush] at h
  by_cases hk : k = r
  · rw [if_pos hk] at h
    cases hold : alLookup r adj with
    | none =>
      rw [hold] at h
      simp at h
      subst h
      simp at hn
      exact Or.inl hn
    | some l0 =>
      rw [hold] at h
      simp at h
      subst h
      rcases List.mem_append.mp hn with h0 | h1
      · exact Or.inr ⟨l0, rfl, h0⟩
      · exact Or.inl (List.mem_singleton.mp h1)
  · rw [if_neg hk] at h
    exact Or.inr ⟨l, h, hn⟩

theorem mem_of_alLookup_fold_push (outs : List (String × Nat)) (name r : String)
    (adj : List (String × List String)) (l : List String)
    (h : alLookup r (outs.foldl (fun a kv => alPush kv.1 name a) adj) = some l) :
    ∀ n ∈ l, n = name ∨ ∃ l0, alLookup r adj = some l0 ∧ n ∈ l0 := by
  induction outs generalizing adj l with
  | nil => exact fun n hn => Or.inr ⟨l, h, hn⟩
  | cons hd tl ih =>
    intro n hn
    rw [List.foldl_cons] at h
    rcases ih (alPush hd.1 name adj) l h n hn with h1 | ⟨l0, hl0, hn0⟩
    · exact Or.inl h1
    · rcases mem_of_alLookup_alPush adj hd.1 name r l0 hl0 n hn0 with h2 | h3
      · exact Or.inl h2
      · exact Or.inr h3

theorem alLookup_eq_some_of_mem (ops : List (String × Recipe)) (n : String) (rec : Recipe)
    (hnd : (ops.map Prod.fst).Nodup) (hmem : (n, rec) ∈ ops) :
    alLookup n ops = some rec := by
  induction ops with
  | nil => cases hmem
  | cons hd tl ih =>
    rw [List.map_cons, List.nodup_cons] at hnd
    obtain ⟨hhd, htl⟩ := hnd
    rcases List.mem_cons.mp hmem with h1 | h2
    · subst h1
      simp [alLookup]
    · obtain ⟨k, v⟩ := hd
      have hk : k ≠ n := by
        intro h
        subst h
        exact hhd (List.mem_map.mpr ⟨(k, rec), h2, rfl⟩)
      simp only [alLookup, if_neg hk]
      exact ih htl h2

theorem mem_of_alLookup_eq_some (ops : List (String × Recipe)) (n : String) (rec : Recipe)
    (h : alLookup n ops = some rec) : (n, rec) ∈ ops := by
  induction ops with
  | nil => cases h
  | cons hd tl ih =>
    obtain ⟨k, v⟩ := hd
    by_cases hk : k = n
    · subst hk
      simp [alLookup] at h
      subst h
      exact List.mem_cons_self _ _
    · simp only [alLookup, if_neg hk] at h
      exact List.mem_cons_of_mem _ (ih h)

theorem mem_producersFrom (ops : List (String × Recipe)) (r n : String) :
    n ∈ producersFrom ops r ↔ ∃ rec, (n, rec) ∈ ops ∧ producesKey rec r = true := by
  constructor
  · intro h
    rcases List.mem_map.mp h with ⟨op, hop, hfst⟩
    obtain ⟨a, b⟩ := op
    rcases List.mem_filter.mp hop with ⟨hmem, hp⟩
    subst hfst
    exact ⟨b, hmem, hp⟩
  · rintro ⟨rec, hmem, hp⟩
    exact List.mem_map.mpr ⟨(n, rec), List.mem_filter.mpr ⟨hmem, hp⟩, rfl⟩

/-- Claim C1 counterexample: registering a recipe with no outputs (invalid
per the spec) does not fail and the recipe is stored: the subsequent lookup
reflects it, so no `ValidationError` rejection happens. -/
theorem add_recipe_no_validation_counterexample :
    alLookup "Smelt"
        (SupplyChainGraph.new.add_recipe "Smelt" ⟨[("Ore", 2)], [], 5⟩).recipes =
      some ⟨[("Ore", 2)], [], 5⟩ := by decide

/-- Claim C1 (amended): `add_recipe` performs no validation at all; even a
recipe with no outputs, a zero quantity, or a resource name occurring in
both its inputs and outputs is stored unconditionally and is visible to
subsequent lookups. -/
theorem add_recipe_stores_invalid (g : SupplyChainGraph) (n : String) (rec : Recipe)
    (_h : rec.outputs = [] ∨ (∃ kv ∈ rec.inputs, kv.2 = 0) ∨ (∃ kv ∈ rec.outputs, kv.2 = 0) ∨
      ∃ kv ∈ rec.inputs, producesKey rec kv.1 = true) :
    alLookup n (g.add_recipe n rec).recipes = some rec := by
  show alLookup n (alInsert n rec g.recipes) = some rec
  rw [alLookup_alInsert]
  simp

/-- Witness for C1 (amended) at a concrete no-output recipe. -/
theorem add_recipe_stores_invalid_witness :
    alLookup "Bad" (SupplyChainGraph.new.add_recipe "Bad" ⟨[("Ore", 2)], [], 5⟩).recipes =
      some ⟨[("Ore", 2)], [], 5⟩ :=
  add_recipe_stores_invalid SupplyChainGraph.new "Bad" ⟨[("Ore", 2)], [], 5⟩ (Or.inl rfl)

/-- Claim C2 counterexample: for an unknown resource `find_production_path`
returns `none` — an absent value, not an empty collection; and after
re-registering `R` with outputs `{Y}` in place of `{X}`, the lookup for `X`
still returns `["R"]` although the stored `R` no longer produces `X`. -/
theorem producers_of_counterexample :
    SupplyChainGraph.new.find_production_path "Ore" = none ∧
    ((SupplyChainGraph.new.add_recipe "R" ⟨[], [("X", 1)], 0⟩).add_recipe "R"
        ⟨[], [("Y", 1)], 0⟩).find_production_path "X" = some ["R"] ∧
    alLookup "R" ((SupplyChainGraph.new.add_recipe "R" ⟨[], [("X", 1)], 0⟩).add_recipe "R"
        ⟨[], [("Y", 1)], 0⟩).recipes = some ⟨[], [("Y", 1)], 0⟩ := by decide

/-- Claim C2 (amended): `find_production_path` returns `none` (not an empty
collection) when no registration event produced the resource; otherwise it
returns `some` of the names of the registration events whose outputs
included the resource, in stable registration order, one entry per event
(so a re-registered name appears once per event). -/
theorem producers_of_registration_order (ops : List (String × Recipe)) (r : String)
    (h : ∀ op ∈ ops, (op.2.outputs.map Prod.fst).Nodup) :
    (producersFrom ops r = [] → (buildGraph ops).find_production_path r = none) ∧
    (producersFrom ops r ≠ [] →
      (buildGraph ops).find_production_path r = some (producersFrom ops r)) := by
  constructor
  · intro he
    rw [find_buildGraph ops r h, if_pos he]
  · intro he
    rw [find_buildGraph ops r h, if_neg he]

/-- Witness for C2 (amended) on a one-recipe repository. -/
theorem producers_of_registration_order_witness :
    (buildGraph [("Smelt", ⟨[("Ore", 2)], [("Bar", 1)], 10⟩)]).find_production_path "Bar" =
      some (producersFrom [("Smelt", ⟨[("Ore", 2)], [("Bar", 1)], 10⟩)] "Bar") :=
  (producers_of_registration_order [("Smelt", ⟨[("Ore", 2)], [("Bar", 1)], 10⟩)] "Bar"
    (by decide)).2 (by decide)

/-- Claim C3: `find_production_path` returns only the direct producers of
the one requested resource: `none` when no registration listed the resource
among its outputs, and otherwise exactly the list of recipe names
registered as producing it, in registration order — no multi-step
resolution, no quantity or cost reasoning, no cycle handling. -/
theorem find_production_path_direct_producers (ops : List (String × Recipe)) (r : String)
    (h : ∀ op ∈ ops, (op.2.outputs.map Prod.fst).Nodup) :
    (buildGraph ops).find_production_path r =
      if producersFrom ops r = [] then none else some (producersFrom ops r) :=
  find_buildGraph ops r h

/-- Witness for C3 on a two-recipe repository. -/
theorem find_production_path_direct_producers_witness :
    (buildGraph [("Smelt", ⟨[("Ore", 2)], [("Bar", 1)], 10⟩),
        ("Forge", ⟨[("Bar", 3)], [("Sword", 1)], 20⟩)]).find_production_path "Bar" =
      if producersFrom [("Smelt", ⟨[("Ore", 2)], [("Bar", 1)], 10⟩),
          ("Forge", ⟨[("Bar", 3)], [("Sword", 1)], 20⟩)] "Bar" = [] then none
      else some (producersFrom [("Smelt", ⟨[("Ore", 2)], [("Bar", 1)], 10⟩),
          ("Forge", ⟨[("Bar", 3)], [("Sword", 1)], 20⟩)] "Bar") :=
  find_production_path_direct_producers [("Smelt", ⟨[("Ore", 2)], [("Bar", 1)], 10⟩),
    ("Forge", ⟨[("Bar", 3)], [("Sword", 1)], 20⟩)] "Bar" (by decide)

/-- Claim C4 counterexample: after re-registering `R` with outputs `{Y}` in
place of `{X}`, the index still maps `X` to `["R"]` although the stored `R`
no longer produces `X` — the index is left stale by the mutation. -/
theorem index_stale_counterexample :
    ((SupplyChainGraph.new.add_recipe "R" ⟨[], [("X", 1)], 0⟩).add_recipe "R"
        ⟨[], [("Y", 1)], 0⟩).find_production_path "X" = some ["R"] ∧
    alLookup "R" ((SupplyChainGraph.new.add_recipe "R" ⟨[], [("X", 1)], 0⟩).add_recipe "R"
        ⟨[], [("Y", 1)], 0⟩).recipes = some ⟨[], [("Y", 1)], 0⟩ ∧
    producesKey ⟨[], [("Y", 1)], 0⟩ "X" = false := by decide

/-- Claim C4 (amended): in every state reachable by registrations, each
recipe name in the index exists in the recipe set; and when the registered
names are pairwise distinct the index maps each resource to exactly the
names of the stored recipes whose current outputs include it.
Re-registering an existing name appends it again without pruning the old
entries, so without distinctness the index may hold duplicate or stale
entries. -/
theorem index_invariant (ops : List (String × Recipe)) :
    (∀ r l, (buildGraph ops).find_production_path r = some l →
      ∀ n ∈ l, alLookup n (buildGraph ops).recipes ≠ none) ∧
    ((ops.map Prod.fst).Nodup → (∀ op ∈ ops, (op.2.outputs.map Prod.fst).Nodup) →
      ∀ r n, (∃ l, (buildGraph ops).find_production_path r = some l ∧ n ∈ l) ↔
        ∃ rec, alLookup n (buildGraph ops).recipes = some rec ∧ producesKey rec r = true) := by
  constructor
  · induction ops using List.reverseRecOn with
    | nil =>
      intro r l hl
      simp [buildGraph, SupplyChainGraph.new, SupplyChainGraph.find_production_path,
        alLookup] at hl
    | append_singleton l op ih =>
      intro r ll hll n hn
      rw [buildGraph_append_singleton, find_production_path_eq_alLookup] at hll
      have hm := mem_of_alLookup_fold_push op.2.outputs op.1 r
        (buildGraph l).adjacency_list ll hll n hn
      rw [buildGraph_append_singleton]
      show alLookup n (alInsert op.1 op.2 (buildGraph l).recipes) ≠ none
      rw [alLookup_alInsert]
      rcases hm with h1 | ⟨l0, hl0, hn0⟩
      · subst h1
        simp
      · by_cases hk : op.1 = n
        · simp [hk]
        · rw [if_neg hk]
          refine ih r l0 ?_ n hn0
          rw [find_production_path_eq_alLookup]
          exact hl0
  · intro hnames houts r n
    have hfind := find_buildGraph ops r houts
    have hrev : (ops.reverse.map Prod.fst).Nodup := by
      rw [List.map_reverse, List.nodup_reverse]
      exact hnames
    constructor
    · rintro ⟨ll, hll, hn⟩
      rw [hfind] at hll
      by_cases he : producersFrom ops r = []
      · rw [if_pos he] at hll
        cases hll
      · rw [if_neg he] at hll
        injection hll with hll'
        subst hll'
        rcases (mem_producersFrom ops r n).mp hn with ⟨rec, hmem, hp⟩
        refine ⟨rec, ?_, hp⟩
        rw [recipes_buildGraph]
        exact alLookup_eq_some_of_mem ops.reverse n rec hrev (List.mem_reverse.mpr hmem)
    · rintro ⟨rec, hlook, hp⟩
      rw [recipes_buildGraph] at hlook
      have hmem : (n, rec) ∈ ops :=
        List.mem_reverse.mp (mem_of_alLookup_eq_some ops.reverse n rec hlook)
      have hnp : n ∈ producersFrom ops r := (mem_producersFrom ops r n).mpr ⟨rec, hmem, hp⟩
      have hne : producersFrom ops r ≠ [] := List.ne_nil_of_mem hnp
      exact ⟨producersFrom ops r, by rw [hfind, if_neg hne], hnp⟩

/-- Witness for C4 (amended): both halves instantiated on a one-recipe
repository. -/
theorem index_invariant_witness :
    alLookup "Smelt"
        (buildGraph [("Smelt", ⟨[("Ore", 2)], [("Bar", 1)], 10⟩)]).recipes ≠ none ∧
    ∃ rec, alLookup "Smelt"
        (buildGraph [("Smelt", ⟨[("Ore", 2)], [("Bar", 1)], 10⟩)]).recipes = some rec ∧
      producesKey rec "Bar" = true :=
  ⟨(index_invariant [("Smelt", ⟨[("Ore", 2)], [("Bar", 1)], 10⟩)]).1 "Bar" ["Smelt"]
      (by decide) "Smelt" (by decide),
   ((index_invariant [("Smelt", ⟨[("Ore", 2)], [("Bar", 1)], 10⟩)]).2 (by decide) (by decide)
      "Bar" "Smelt").mp ⟨["Smelt"], by decide, by decide⟩⟩

/-- Claim C5 counterexample: registering the same recipe value twice under
the same name does not yield an identical index — the producers-of lookup
returns `["R", "R"]` after the double registration but `["R"]` after a
single one. -/
theorem add_recipe_idempotence_counterexample :
    ((SupplyChainGraph.new.add_recipe "R" ⟨[], [("X", 1)], 0⟩).add_recipe "R"
        ⟨[], [("X", 1)], 0⟩).find_production_path "X" = some ["R", "R"] ∧
    (SupplyChainGraph.new.add_recipe "R" ⟨[], [("X", 1)], 0⟩).find_production_path "X" =
      some ["R"] ∧
    (some ["R", "R"] : Option (List String)) ≠ some ["R"] := by decide

/-- Claim C5 (amended): re-registering the same recipe under the same name
leaves the stored recipe map identical, but appends the name once more to
the index entry of each of its output resources, so producers-of lookups
gain a duplicate entry instead of staying identical. -/
theorem add_recipe_reregister (g : SupplyChainGraph) (n : String) (rec : Recipe)
    (h : (rec.outputs.map Prod.fst).Nodup) :
    ((g.add_recipe n rec).add_recipe n rec).recipes = (g.add_recipe n rec).recipes ∧
    ∀ r, ((g.add_recipe n rec).add_recipe n rec).find_production_path r =
      if producesKey rec r then
        some (((g.add_recipe n rec).find_production_path r).getD [] ++ [n])
      else (g.add_recipe n rec).find_production_path r := by
  constructor
  · show alInsert n rec (alInsert n rec g.recipes) = alInsert n rec g.recipes
    exact alInsert_alInsert n rec g.recipes
  · intro r
    simp only [find_production_path_eq_alLookup]
    show alLookup r (rec.outputs.foldl (fun a kv => alPush kv.1 n a)
      (g.add_recipe n rec).adjacency_list) = _
    rw [alLookup_fold_push rec.outputs n r _ h]
    rfl

/-- Witness for C5 (amended) at a concrete recipe. -/
theorem add_recipe_reregister_witness :
    ((SupplyChainGraph.new.add_recipe "R" ⟨[], [("X", 1)], 0⟩).add_recipe "R"
        ⟨[], [("X", 1)], 0⟩).recipes =
      (SupplyChainGraph.new.add_recipe "R" ⟨[], [("X", 1)], 0⟩).recipes :=
  (add_recipe_reregister SupplyChainGraph.new "R" ⟨[], [("X", 1)], 0⟩ (by decide)).1

/-- Claim C6: registering a recipe and then looking it up by name returns a
recipe whose inputs and outputs equal the registered ones, unchanged
(round-trip). -/
theorem register_get_roundtrip (g : SupplyChainGraph) (n : String) (rec : Recipe) :
    ∃ stored : Recipe, alLookup n (g.add_recipe n rec).recipes = some stored ∧
      stored.inputs = rec.inputs ∧ stored.outputs = rec.outputs := by
  refine ⟨rec, ?_, rfl, rfl⟩
  show alLookup n (alInsert n rec g.recipes) = some rec
  rw [alLookup_alInsert]
  simp

/-- Claim C7 counterexample: requesting the producers of the
never-registered resource `Unobtainium` returns `None` — a silent absence
in the `Option` result, with no `NotFoundError` value anywhere in the
result type. -/
theorem unknown_resource_counterexample :
    SupplyChainGraph.new.find_production_path "Unobtainium" = none := by decide

/-- Claim C7 (amended): for a resource never registered as any recipe's
output, `find_production_path` returns `None` (an absent value) rather than
a distinct, inspectable `NotFoundError` outcome. -/
theorem find_unregistered_none (ops : List (String × Recipe)) (r : String)
    (h : ∀ op ∈ ops, producesKey op.2 r = false) :
    (buildGraph ops).find_production_path r = none := by
  induction ops using List.reverseRecOn with
  | nil => rfl
  | append_singleton l op ih =>
    have hop : producesKey op.2 r = false :=
      h op (List.mem_append_right _ (List.mem_singleton_self op))
    have hl : ∀ o ∈ l, producesKey o.2 r = false := fun o ho => h o (List.mem_append_left _ ho)
    rw [buildGraph_append_singleton, find_production_path_eq_alLookup]
    show alLookup r (op.2.outputs.foldl (fun a kv => alPush kv.1 op.1 a)
      (buildGraph l).adjacency_list) = none
    rw [alLookup_fold_push_of_not_mem]
    · rw [← find_production_path_eq_alLookup]
      exact ih hl
    · intro kv hkv heq
      have hany : producesKey op.2 r = true :=
        List.any_eq_true.mpr ⟨kv, hkv, by simp [heq]⟩
      rw [hop] at hany
      cases hany

/-- Witness for C7 (amended) on a one-recipe repository. -/
theorem find_unregistered_none_witness :
    (buildGraph [("Smelt", ⟨[("Ore", 2)], [("Bar", 1)], 10⟩)]).find_production_path
      "Unobtainium" = none :=
  find_unregistered_none [("Smelt", ⟨[("Ore", 2)], [("Bar", 1)], 10⟩)] "Unobtainium"
    (by decide)

/-- Claim C8: the lookup is a deterministic function of the repository
state and the target — two calls with identical arguments on an unchanged
graph return identical results, element order included. -/
theorem find_production_path_deterministic (g₁ g₂ : SupplyChainGraph) (t₁ t₂ : String)
    (hg : g₁ = g₂) (ht : t₁ = t₂) :
    g₁.find_production_path t₁ = g₂.find_production_path t₂ := by
  rw [hg, ht]

/-- Witness for C8 at a concrete graph and target. -/
theorem find_production_path_deterministic_witness :
    (SupplyChainGraph.new.add_recipe "Smelt"
        ⟨[("Ore", 2)], [("Bar", 1)], 10⟩).find_production_path "Bar" =
      (SupplyChainGraph.new.add_recipe "Smelt"
        ⟨[("Ore", 2)], [("Bar", 1)], 10⟩).find_production_path "Bar" :=
  find_production_path_deterministic
    (SupplyChainGraph.new.add_recipe "Smelt" ⟨[("Ore", 2)], [("Bar", 1)], 10⟩)
    (SupplyChainGraph.new.add_recipe "Smelt" ⟨[("Ore", 2)], [("Bar", 1)], 10⟩)
    "Bar" "Bar" rfl rfl

/-- Claim C9: `add_recipe` is frame-local: producers-of results change only
for resources in the new recipe's output map, and the stored recipe set
changes only at the registered name — every other lookup returns exactly
what it returned before. -/
theorem add_recipe_frame (g : SupplyChainGraph) (n : String) (rec : Recipe) :
    (∀ r, producesKey rec r = false →
      (g.add_recipe n rec).find_production_path r = g.find_production_path r) ∧
    ∀ n', n' ≠ n → alLookup n' (g.add_recipe n rec).recipes = alLookup n' g.recipes := by
  constructor
  · intro r hr
    simp only [find_production_path_eq_alLookup]
    show alLookup r (rec.outputs.foldl (fun a kv => alPush kv.1 n a) g.adjacency_list) = _
    apply alLookup_fold_push_of_not_mem
    intro kv hkv heq
    have hany : producesKey rec r = true := List.any_eq_true.mpr ⟨kv, hkv, by simp [heq]⟩
    rw [hr] at hany
    cases hany
  · intro n' hn'
    show alLookup n' (alInsert n rec g.recipes) = _
    rw [alLookup_alInsert, if_neg (fun hx => hn' hx.symm)]

/-- Witness for C9: a fresh recipe leaves an unrelated resource's
producers and an unrelated name's stored recipe unchanged. -/
theorem add_recipe_frame_witness :
    (SupplyChainGraph.new.add_recipe "Smelt"
        ⟨[("Ore", 2)], [("Bar", 1)], 10⟩).find_production_path "Iron" =
      SupplyChainGraph.new.find_production_path "Iron" ∧
    alLookup "Forge" (SupplyChainGraph.new.add_recipe "Smelt"
        ⟨[("Ore", 2)], [("Bar", 1)], 10⟩).recipes =
      alLookup "Forge" SupplyChainGraph.new.recipes :=
  ⟨(add_recipe_frame SupplyChainGraph.new "Smelt" ⟨[("Ore", 2)], [("Bar", 1)], 10⟩).1
      "Iron" (by decide),
   (add_recipe_frame SupplyChainGraph.new "Smelt" ⟨[("Ore", 2)], [("Bar", 1)], 10⟩).2
      "Forge" (by decide)⟩

/-- Claim C10: `SessionKey::generate` never fails and is fully
deterministic: it always returns `Ok` with the fixed private key
`0x1234...ephemeral_private`, the fixed public key
`0x5678...ephemeral_public` and `expires_at = 0`, so any two generated
session keys are identical. -/
theorem sessionKey_generate_constant :
    SessionKey.generate =
      Except.ok ⟨"0x1234...ephemeral_private", "0x5678...ephemeral_public", 0⟩ ∧
    ∀ k₁ k₂ : SessionKey, SessionKey.generate = Except.ok k₁ →
      SessionKey.generate = Except.ok k₂ → k₁ = k₂ := by
  refine ⟨rfl, ?_⟩
  intro k₁ k₂ h₁ h₂
  simp only [SessionKey.generate, Except.ok.injEq] at h₁ h₂
  rw [← h₁, ← h₂]

/-- Witness for C10: the two-keys-identical part applied to two actual
calls of the generator. -/
theorem sessionKey_generate_constant_witness :
    (⟨"0x1234...ephemeral_private", "0x5678...ephemeral_public", 0⟩ : SessionKey) =
      ⟨"0x1234...ephemeral_private", "0x5678...ephemeral_public", 0⟩ :=
  sessionKey_generate_constant.2 _ _ rfl rfl
